import Mathlib

/-!
Verification of the `nosqlite` predicate (clause) algebra, naming scheme,
and table/transaction access layer, as a shallow embedding of the Go source
(`clause.go`, `table.go`, and the transactional table file).

Caller-supplied bind values are kept abstract as a type parameter `V`:
the Go code passes string / int / float64 / bool values through unchanged
(other numeric kinds are reformatted to a string, which is still a single
value), so the placeholder/value bookkeeping never depends on the value
representation.
-/

namespace NoSQLite

/-- Mirror of Go `strings.Join`: elements concatenated with `sep` between
consecutive elements. -/
def goJoin : List String → String → String
  | [], _ => ""
  | [s], _ => s
  | s :: rest, sep => s ++ sep ++ goJoin rest sep

/-- `jsonField` from `clause.go`: `fmt.Sprintf("data->>'%s'", field)`. -/
def jsonField (field : String) : String :=
  "data->>'" ++ field ++ "'"

/-- The `Clause` implementations of `clause.go`.  `condition[T]` carries a
field, an operator string and one value; `inCondition` a list of values;
`betweenCondition` two bounds; `containsCondition` a combinator ("AND"/"OR")
and a list of values; `combinatorClause` stores its child clauses together
with the child clause strings and the concatenated child values, exactly as
built by `combine`. -/
inductive Clause (V : Type) where
  | condition (field : String) (op : String) (value : V)
  | inCondition (field : String) (values : List V)
  | betweenCondition (field : String) (vfrom vto : V)
  | containsCondition (field : String) (comb : String) (values : List V)
  | combinatorClause (comb : String) (clauses : List (Clause V))
      (clauseStrings : List String) (values : List V)
  deriving Repr

/-- `containsCondition.singleClause` from `clause.go`. -/
def containsSingle (field : String) : String :=
  "(EXISTS (SELECT 1 FROM json_each(" ++ jsonField field ++ ") WHERE json_each.value = ?))"

/-- The `Clause()` method of each implementation in `clause.go`:
`condition` renders `(data->>'f' op ?)`; `inCondition` one `?` per value;
`betweenCondition` two placeholders; `containsCondition` one existence
subquery per value joined by its combinator (collapsing to the bare
subquery for exactly one value); `combinatorClause` renders `(1 == 1)`
when it has no children and otherwise joins the stored child clause
strings with the combinator. -/
def clauseText {V : Type} : Clause V → String
  | .condition f op _ => "(" ++ jsonField f ++ " " ++ op ++ " ?)"
  | .inCondition f vs =>
      "(" ++ jsonField f ++ " IN (" ++ goJoin (vs.map fun _ => "?") "," ++ "))"
  | .betweenCondition f _ _ => "(" ++ jsonField f ++ " BETWEEN ? AND ?)"
  | .containsCondition f comb vs =>
      if vs.length = 1 then containsSingle f
      else "(" ++ goJoin (vs.map fun _ => containsSingle f) (" " ++ comb ++ " ") ++ ")"
  | .combinatorClause comb clauses clauseStrings _ =>
      if clauses.length = 0 then "(1 == 1)"
      else "(" ++ goJoin clauseStrings (" " ++ comb ++ " ") ++ ")"

/-- The `Values()` method of each implementation in `clause.go`. -/
def values {V : Type} : Clause V → List V
  | .condition _ _ v => [v]
  | .inCondition _ vs => vs
  | .betweenCondition _ a b => [a, b]
  | .containsCondition _ _ vs => vs
  | .combinatorClause _ _ _ vs => vs

/-- `combine` from `clause.go`: caches each child's `Clause()` string and
the in-order concatenation of the children's `Values()`. -/
def combine {V : Type} (comb : String) (clauses : List (Clause V)) : Clause V :=
  .combinatorClause comb clauses (clauses.map clauseText)
    (clauses.flatMap values)

/-- Free function `And` from `clause.go`. -/
def AndC {V : Type} (clauses : List (Clause V)) : Clause V :=
  combine "AND" clauses

/-- Free function `Or` from `clause.go`. -/
def OrC {V : Type} (clauses : List (Clause V)) : Clause V :=
  combine "OR" clauses

/-- `All()` from `clause.go`: `And()` with no arguments. -/
def AllC {V : Type} : Clause V :=
  AndC []

/-- The fluent `And` method: every concrete clause type in `clause.go`
implements `And(cl)` as `And(receiver, cl)`; the match mirrors the
per-type dynamic dispatch. -/
def Clause.fluentAnd {V : Type} (c cl : Clause V) : Clause V :=
  match c with
  | .condition f op v => AndC [.condition f op v, cl]
  | .inCondition f vs => AndC [.inCondition f vs, cl]
  | .betweenCondition f a b => AndC [.betweenCondition f a b, cl]
  | .containsCondition f cb vs => AndC [.containsCondition f cb vs, cl]
  | .combinatorClause cb cs ss vs => AndC [.combinatorClause cb cs ss vs, cl]

/-- The fluent `Or` method, implemented per concrete type as `Or(receiver, cl)`. -/
def Clause.fluentOr {V : Type} (c cl : Clause V) : Clause V :=
  match c with
  | .condition f op v => OrC [.condition f op v, cl]
  | .inCondition f vs => OrC [.inCondition f vs, cl]
  | .betweenCondition f a b => OrC [.betweenCondition f a b, cl]
  | .containsCondition f cb vs => OrC [.containsCondition f cb vs, cl]
  | .combinatorClause cb cs ss vs => OrC [.combinatorClause cb cs ss vs, cl]

/-- `Equal` from `clause.go`. -/
def EqualC {V : Type} (field : String) (value : V) : Clause V :=
  .condition field "=" value

/-- `NotEqual` from `clause.go`. -/
def NotEqualC {V : Type} (field : String) (value : V) : Clause V :=
  .condition field "!=" value

/-- `LessThan` from `clause.go`. -/
def LessThanC {V : Type} (field : String) (value : V) : Clause V :=
  .condition field "<" value

/-- `LessThanOrEqual` from `clause.go`. -/
def LessThanOrEqualC {V : Type} (field : String) (value : V) : Clause V :=
  .condition field "<=" value

/-- `GreaterThan` from `clause.go`. -/
def GreaterThanC {V : Type} (field : String) (value : V) : Clause V :=
  .condition field ">" value

/-- `GreaterThanOrEqual` from `clause.go`. -/
def GreaterThanOrEqualC {V : Type} (field : String) (value : V) : Clause V :=
  .condition field ">=" value

/-- `Like` from `clause.go` (the pattern is a bind value). -/
def LikeC {V : Type} (field : String) (pattern : V) : Clause V :=
  .condition field "LIKE" pattern

/-- `In` from `clause.go`. -/
def InC {V : Type} (field : String) (vs : List V) : Clause V :=
  .inCondition field vs

/-- `Between` from `clause.go`. -/
def BetweenC {V : Type} (field : String) (vfrom vto : V) : Clause V :=
  .betweenCondition field vfrom vto

/-- `ContainsAll` from `clause.go` (via `andCondition`/`newContainsCondition`). -/
def ContainsAllC {V : Type} (field : String) (vs : List V) : Clause V :=
  .containsCondition field "AND" vs

/-- `ContainsAny` from `clause.go` (via `orCondition`/`newContainsCondition`). -/
def ContainsAnyC {V : Type} (field : String) (vs : List V) : Clause V :=
  .containsCondition field "OR" vs

/-- `Contains` from `clause.go`: `ContainsAll(field, value)` with the single value. -/
def ContainsC {V : Type} (field : String) (value : V) : Clause V :=
  ContainsAllC field [value]

/-- Abstract syntax of calls to the public predicate constructors of
`clause.go`: one node per constructor, with `And`/`Or` nesting. -/
inductive Pred (V : Type) where
  | equal (field : String) (v : V)
  | notEqual (field : String) (v : V)
  | lessThan (field : String) (v : V)
  | lessThanOrEqual (field : String) (v : V)
  | greaterThan (field : String) (v : V)
  | greaterThanOrEqual (field : String) (v : V)
  | like (field : String) (pattern : V)
  | inP (field : String) (vs : List V)
  | between (field : String) (lo hi : V)
  | containsAll (field : String) (vs : List V)
  | containsAny (field : String) (vs : List V)
  | contains (field : String) (v : V)
  | andP (ps : List (Pred V))
  | orP (ps : List (Pred V))
  deriving Repr

mutual

/-- Interpret a constructor-call tree into the `Clause` value the public
Go API produces for it. -/
def build {V : Type} : Pred V → Clause V
  | .equal f v => EqualC f v
  | .notEqual f v => NotEqualC f v
  | .lessThan f v => LessThanC f v
  | .lessThanOrEqual f v => LessThanOrEqualC f v
  | .greaterThan f v => GreaterThanC f v
  | .greaterThanOrEqual f v => GreaterThanOrEqualC f v
  | .like f v => LikeC f v
  | .inP f vs => InC f vs
  | .between f a b => BetweenC f a b
  | .containsAll f vs => ContainsAllC f vs
  | .containsAny f vs => ContainsAnyC f vs
  | .contains f v => ContainsC f v
  | .andP ps => AndC (buildList ps)
  | .orP ps => OrC (buildList ps)

/-- Interpretation of every tree of a child list. -/
def buildList {V : Type} : List (Pred V) → List (Clause V)
  | [] => []
  | p :: ps => build p :: buildList ps

end

mutual

/-- The field paths occurring in a constructor-call tree. -/
def fieldsOf {V : Type} : Pred V → List String
  | .equal f _ => [f]
  | .notEqual f _ => [f]
  | .lessThan f _ => [f]
  | .lessThanOrEqual f _ => [f]
  | .greaterThan f _ => [f]
  | .greaterThanOrEqual f _ => [f]
  | .like f _ => [f]
  | .inP f _ => [f]
  | .between f _ _ => [f]
  | .containsAll f _ => [f]
  | .containsAny f _ => [f]
  | .contains f _ => [f]
  | .andP ps => fieldsOfList ps
  | .orP ps => fieldsOfList ps

/-- Field paths of every tree of a child list. -/
def fieldsOfList {V : Type} : List (Pred V) → List String
  | [] => []
  | p :: ps => fieldsOf p ++ fieldsOfList ps

end

mutual

/-- Spec-side definition (for the refinement in C1), following the spec's
words: the bind values of a predicate tree, "recursively concatenated in
traversal order" — each node contributes its own values left to right. -/
def specTraversalValues {V : Type} : Pred V → List V
  | .equal _ v => [v]
  | .notEqual _ v => [v]
  | .lessThan _ v => [v]
  | .lessThanOrEqual _ v => [v]
  | .greaterThan _ v => [v]
  | .greaterThanOrEqual _ v => [v]
  | .like _ v => [v]
  | .inP _ vs => vs
  | .between _ a b => [a, b]
  | .containsAll _ vs => vs
  | .containsAny _ vs => vs
  | .contains _ v => [v]
  | .andP ps => specTraversalValuesList ps
  | .orP ps => specTraversalValuesList ps

/-- Traversal-order values of every tree of a child list, concatenated. -/
def specTraversalValuesList {V : Type} : List (Pred V) → List V
  | [] => []
  | p :: ps => specTraversalValues p ++ specTraversalValuesList ps

end

mutual

/-- The shape of a constructor-call tree: the same tree with every bind
value erased (fields and value-list lengths kept). -/
def shapeOf {V : Type} : Pred V → Pred Unit
  | .equal f _ => .equal f ()
  | .notEqual f _ => .notEqual f ()
  | .lessThan f _ => .lessThan f ()
  | .lessThanOrEqual f _ => .lessThanOrEqual f ()
  | .greaterThan f _ => .greaterThan f ()
  | .greaterThanOrEqual f _ => .greaterThanOrEqual f ()
  | .like f _ => .like f ()
  | .inP f vs => .inP f (vs.map fun _ => ())
  | .between f _ _ => .between f () ()
  | .containsAll f vs => .containsAll f (vs.map fun _ => ())
  | .containsAny f vs => .containsAny f (vs.map fun _ => ())
  | .contains f _ => .contains f ()
  | .andP ps => .andP (shapeOfList ps)
  | .orP ps => .orP (shapeOfList ps)

/-- Shapes of every tree of a child list. -/
def shapeOfList {V : Type} : List (Pred V) → List (Pred Unit)
  | [] => []
  | p :: ps => shapeOf p :: shapeOfList ps

end

/-- Number of `?` characters in a string. -/
def countQ (s : String) : Nat :=
  s.data.count '?'

/-- Induction over `Pred` giving the inductive hypothesis for every member
of an `andP`/`orP` child list. -/
def Pred.inductionMem {V : Type} {motive : Pred V → Prop}
    (hequal : ∀ f v, motive (.equal f v))
    (hnotEqual : ∀ f v, motive (.notEqual f v))
    (hlessThan : ∀ f v, motive (.lessThan f v))
    (hlessThanOrEqual : ∀ f v, motive (.lessThanOrEqual f v))
    (hgreaterThan : ∀ f v, motive (.greaterThan f v))
    (hgreaterThanOrEqual : ∀ f v, motive (.greaterThanOrEqual f v))
    (hlike : ∀ f v, motive (.like f v))
    (hinP : ∀ f vs, motive (.inP f vs))
    (hbetween : ∀ f a b, motive (.between f a b))
    (hcontainsAll : ∀ f vs, motive (.containsAll f vs))
    (hcontainsAny : ∀ f vs, motive (.containsAny f vs))
    (hcontains : ∀ f v, motive (.contains f v))
    (handP : ∀ ps, (∀ p ∈ ps, motive p) → motive (.andP ps))
    (horP : ∀ ps, (∀ p ∈ ps, motive p) → motive (.orP ps)) :
    ∀ p, motive p
  | .equal f v => hequal f v
  | .notEqual f v => hnotEqual f v
  | .lessThan f v => hlessThan f v
  | .lessThanOrEqual f v => hlessThanOrEqual f v
  | .greaterThan f v => hgreaterThan f v
  | .greaterThanOrEqual f v => hgreaterThanOrEqual f v
  | .like f v => hlike f v
  | .inP f vs => hinP f vs
  | .between f a b => hbetween f a b
  | .containsAll f vs => hcontainsAll f vs
  | .containsAny f vs => hcontainsAny f vs
  | .contains f v => hcontains f v
  | .andP ps => handP ps (fun p hp =>
      Pred.inductionMem hequal hnotEqual hlessThan hlessThanOrEqual hgreaterThan
        hgreaterThanOrEqual hlike hinP hbetween hcontainsAll hcontainsAny
        hcontains handP horP p)
  | .orP ps => horP ps (fun p hp =>
      Pred.inductionMem hequal hnotEqual hlessThan hlessThanOrEqual hgreaterThan
        hgreaterThanOrEqual hlike hinP hbetween hcontainsAll hcontainsAny
        hcontains handP horP p)
termination_by p => sizeOf p
decreasing_by all_goals (simp_wf; have := List.sizeOf_lt_of_mem hp; omega)

/-! ### Naming (`table.go`) -/

/-- The text after the first occurrence of the separator character, empty
when the separator does not occur: the `after` component of
`strings.Cut(field, ".")` in `escapeFieldName`. -/
def cutAfter : List Char → Char → List Char
  | [], _ => []
  | x :: xs, c => if x = c then xs else cutAfter xs c

/-- Mirror of Go `strings.ReplaceAll` for a single-character pattern. -/
def replaceAllChar (s : List Char) (c : Char) (r : List Char) : List Char :=
  s.flatMap fun x => if x = c then r else [x]

/-- `escapeFieldName` from `table.go`: take the text after the first `"."`
(empty when there is none), then replace every remaining `"."` by `"__"`
and every space by `"_"`. -/
def escapeFieldName (field : String) : String :=
  String.mk (replaceAllChar (replaceAllChar (cutAfter field.data '.') '.' ['_', '_']) ' ' ['_'])

/-- `joinEscapedFieldNames` from `table.go`. -/
def joinEscapedFieldNames (fields : List String) : String :=
  goJoin (fields.map escapeFieldName) "_"

/-- `constructIndexName` from `table.go`:
`fmt.Sprintf("idx_%s_%s", tableName, joinedParts)`. -/
def constructIndexName (tableName : String) (fields : List String) : String :=
  "idx_" ++ tableName ++ "_" ++ joinEscapedFieldNames fields

/-! ### Pagination and the engine model -/

/-- The shape of the pagination tail a query statement can end with. -/
inductive PaginationSQL where
  | noClause
  | limitOnly (n : Int)
  | offsetOnly (m : Nat)
  | limitOffset (n : Int) (m : Nat)
  deriving Repr, DecidableEq

/-- Rendered SQL text of a pagination tail. -/
def paginationSuffix : PaginationSQL → String
  | .noClause => ""
  | .limitOnly n => " LIMIT " ++ toString n
  | .offsetOnly m => " OFFSET " ++ toString m
  | .limitOffset n m => " LIMIT " ++ toString n ++ " OFFSET " ++ toString m

/-- The pagination tail `Table.QueryManyWithPagination` appends to its
statement: `if limit > 0 { " LIMIT %d" } else { " LIMIT -1" }`, then
`if offset > 0 { " OFFSET %d" }`. -/
def tableSuffix (limit offset : Nat) : String :=
  (if limit > 0 then " LIMIT " ++ toString limit else " LIMIT -1") ++
    (if offset > 0 then " OFFSET " ++ toString offset else "")

/-- The pagination tail `TableWithTx.QueryManyWithPagination` appends:
`if limit > 0 { " LIMIT %d" }`, then `if offset > 0 { " OFFSET %d" }` —
no `LIMIT -1` fallback. -/
def txSuffix (limit offset : Nat) : String :=
  (if limit > 0 then " LIMIT " ++ toString limit else "") ++
    (if offset > 0 then " OFFSET " ++ toString offset else "")

/-- Structured form of the tail built by `Table.QueryManyWithPagination`. -/
def tablePagination (limit offset : Nat) : PaginationSQL :=
  let l : Int := if limit > 0 then (limit : Int) else -1
  if offset > 0 then .limitOffset l offset else .limitOnly l

/-- Structured form of the tail built by `TableWithTx.QueryManyWithPagination`. -/
def txPagination (limit offset : Nat) : PaginationSQL :=
  if limit > 0 then
    (if offset > 0 then .limitOffset (limit : Int) offset else .limitOnly (limit : Int))
  else
    (if offset > 0 then .offsetOnly offset else .noClause)

/-- Errors reported by the storage engine model. -/
inductive EngineErr where
  | cancelled
  | syntaxError
  deriving Repr, DecidableEq

/-- Modelled from the spec: the storage engine is an external collaborator
(an embedded SQL engine, SQLite), out of scope of the repository.  Its
documented contract: it rejects work on an already-cancelled token; its
grammar allows `OFFSET` only as part of a `LIMIT` clause (a bare `OFFSET`
is a syntax error); `LIMIT -1` means unbounded; `LIMIT n OFFSET m` skips
`m` rows of the matching set, then yields at most `n`.  `rows` is the set
of rows matching the `WHERE` clause, in the engine's natural order. -/
def runEngineQuery {R : Type} (ctxCancelled : Bool) (rows : List R) :
    PaginationSQL → Except EngineErr (List R) := fun pag =>
  if ctxCancelled then .error .cancelled
  else
    match pag with
    | .noClause => .ok rows
    | .limitOnly n => .ok (if n < 0 then rows else rows.take n.toNat)
    | .offsetOnly _ => .error .syntaxError
    | .limitOffset n m => .ok (if n < 0 then rows.drop m else (rows.drop m).take n.toNat)

/-! ### Table and transactional-view operations (from the transactional
table file, the current revision of the access layer) -/

/-- Errors the access layer returns, one constructor per wrap site. -/
inductive DbErr where
  | ctxError (op : String)
  | marshalFailed (msg : String)
  | execFailed (e : EngineErr)
  | queryFailed (e : EngineErr)
  | scanFailed (msg : String)
  | unmarshalFailed (msg : String)
  deriving Repr, DecidableEq

/-- Outcome of scanning the single row of a `QueryRowContext`:
`sql.ErrNoRows`, another scan error, or the document text. -/
inductive ScanResult where
  | noRows
  | scanErr (msg : String)
  | row (data : String)
  deriving Repr, DecidableEq

/-- The row loop shared by the `QueryMany*` implementations: scan each
returned row and unmarshal it, stopping at the first failure. -/
def collectRows {T : Type} (dec : String → Except String T) :
    List String → Except String (List T)
  | [] => .ok []
  | r :: rs =>
      match dec r with
      | .error e => .error e
      | .ok t =>
          match collectRows dec rs with
          | .error e => .error e
          | .ok ts => .ok (t :: ts)

/-- A Go slice: `none` is the nil slice, `some l` a non-nil slice with
elements `l` (so `some []` is the non-nil empty slice `make([]T, 0)`). -/
abbrev GoSlice (α : Type) := Option (List α)

/-- `Table.Insert`: check the context, marshal, then one `ExecContext`
call.  Result paired with the number of engine calls issued. -/
def tableInsert (ctxCancelled : Bool) (marshal : Except String String)
    (exec : Except EngineErr Unit) : Except DbErr Unit × Nat :=
  if ctxCancelled then (.error (.ctxError "insert"), 0)
  else
    match marshal with
    | .error e => (.error (.marshalFailed e), 0)
    | .ok _ =>
        match exec with
        | .error e => (.error (.execFailed e), 1)
        | .ok _ => (.ok (), 1)

/-- `Table.Update`: check the context, marshal, one `ExecContext` call;
a zero affected-row count is still success. -/
def tableUpdate (ctxCancelled : Bool) (marshal : Except String String)
    (exec : Except EngineErr Nat) : Except DbErr Unit × Nat :=
  if ctxCancelled then (.error (.ctxError "update"), 0)
  else
    match marshal with
    | .error e => (.error (.marshalFailed e), 0)
    | .ok _ =>
        match exec with
        | .error e => (.error (.execFailed e), 1)
        | .ok _rowsAffected => (.ok (), 1)

/-- `Table.Delete`: check the context, one `ExecContext` call; a zero
affected-row count is still success. -/
def tableDelete (ctxCancelled : Bool) (exec : Except EngineErr Nat) :
    Except DbErr Unit × Nat :=
  if ctxCancelled then (.error (.ctxError "delete"), 0)
  else
    match exec with
    | .error e => (.error (.execFailed e), 1)
    | .ok _ => (.ok (), 1)

/-- `Table.QueryOne`: no context pre-check — `QueryRowContext` is issued
unconditionally (one engine call); a cancelled context surfaces as the
scan's error.  `sql.ErrNoRows` becomes `(nil, nil)`, i.e. `ok none`;
an unmarshal failure becomes a distinct error. -/
def tableQueryOne {T : Type} (ctxCancelled : Bool) (scan : ScanResult)
    (dec : String → Except String T) : Except DbErr (Option T) × Nat :=
  let scanOutcome := if ctxCancelled then ScanResult.scanErr "context canceled" else scan
  match scanOutcome with
  | .noRows => (.ok none, 1)
  | .scanErr e => (.error (.scanFailed e), 1)
  | .row data =>
      match dec data with
      | .error e => (.error (.unmarshalFailed e), 1)
      | .ok t => (.ok (some t), 1)

/-- `Table.QueryManyWithPagination`: no context pre-check — one
`QueryContext` call with the table pagination tail; `results` starts as
`make([]T, 0)`, so the success slice is non-nil even when empty. -/
def tableQueryManyWithPagination {T : Type} (ctxCancelled : Bool)
    (rows : List String) (limit offset : Nat)
    (dec : String → Except String T) : Except DbErr (GoSlice T) × Nat :=
  match runEngineQuery ctxCancelled rows (tablePagination limit offset) with
  | .error e => (.error (.queryFailed e), 1)
  | .ok paged =>
      match collectRows dec paged with
      | .error e => (.error (.unmarshalFailed e), 1)
      | .ok ts => (.ok (some ts), 1)

/-- `Table.QueryMany`: `QueryManyWithPagination(ctx, clause, 0, 0)`. -/
def tableQueryMany {T : Type} (ctxCancelled : Bool) (rows : List String)
    (dec : String → Except String T) : Except DbErr (GoSlice T) × Nat :=
  tableQueryManyWithPagination ctxCancelled rows 0 0 dec

/-- `Table.Count`: no context pre-check — one `QueryRowContext` call. -/
def tableCount (ctxCancelled : Bool) (scan : Except String Nat) :
    Except DbErr Nat × Nat :=
  let scanOutcome := if ctxCancelled then Except.error "context canceled" else scan
  match scanOutcome with
  | .error e => (.error (.scanFailed e), 1)
  | .ok c => (.ok c, 1)

/-- `TableWithTx.Insert`: same structure as `Table.Insert` (context
pre-check, marshal, one `ExecContext` on the transaction). -/
def txInsert (ctxCancelled : Bool) (marshal : Except String String)
    (exec : Except EngineErr Unit) : Except DbErr Unit × Nat :=
  if ctxCancelled then (.error (.ctxError "insert"), 0)
  else
    match marshal with
    | .error e => (.error (.marshalFailed e), 0)
    | .ok _ =>
        match exec with
        | .error e => (.error (.execFailed e), 1)
        | .ok _ => (.ok (), 1)

/-- `TableWithTx.Update`: context pre-check, marshal, one `ExecContext`. -/
def txUpdate (ctxCancelled : Bool) (marshal : Except String String)
    (exec : Except EngineErr Nat) : Except DbErr Unit × Nat :=
  if ctxCancelled then (.error (.ctxError "update"), 0)
  else
    match marshal with
    | .error e => (.error (.marshalFailed e), 0)
    | .ok _ =>
        match exec with
        | .error e => (.error (.execFailed e), 1)
        | .ok _rowsAffected => (.ok (), 1)

/-- `TableWithTx.Delete`: context pre-check, one `ExecContext`. -/
def txDelete (ctxCancelled : Bool) (exec : Except EngineErr Nat) :
    Except DbErr Unit × Nat :=
  if ctxCancelled then (.error (.ctxError "delete"), 0)
  else
    match exec with
    | .error e => (.error (.execFailed e), 1)
    | .ok _ => (.ok (), 1)

/-- `TableWithTx.QueryOne`: no context pre-check, one `QueryRowContext`. -/
def txQueryOne {T : Type} (ctxCancelled : Bool) (scan : ScanResult)
    (dec : String → Except String T) : Except DbErr (Option T) × Nat :=
  let scanOutcome := if ctxCancelled then ScanResult.scanErr "context canceled" else scan
  match scanOutcome with
  | .noRows => (.ok none, 1)
  | .scanErr e => (.error (.scanFailed e), 1)
  | .row data =>
      match dec data with
      | .error e => (.error (.unmarshalFailed e), 1)
      | .ok t => (.ok (some t), 1)

/-- `TableWithTx.QueryManyWithPagination`: no context pre-check — one
`QueryContext` call with the transactional pagination tail (which has no
`LIMIT -1` fallback); `results` starts as `make([]T, 0)`. -/
def txQueryManyWithPagination {T : Type} (ctxCancelled : Bool)
    (rows : List String) (limit offset : Nat)
    (dec : String → Except String T) : Except DbErr (GoSlice T) × Nat :=
  match runEngineQuery ctxCancelled rows (txPagination limit offset) with
  | .error e => (.error (.queryFailed e), 1)
  | .ok paged =>
      match collectRows dec paged with
      | .error e => (.error (.unmarshalFailed e), 1)
      | .ok ts => (.ok (some ts), 1)

/-- `TableWithTx.QueryMany`: `QueryManyWithPagination(ctx, clause, 0, 0)`. -/
def txQueryMany {T : Type} (ctxCancelled : Bool) (rows : List String)
    (dec : String → Except String T) : Except DbErr (GoSlice T) × Nat :=
  txQueryManyWithPagination ctxCancelled rows 0 0 dec

/-- `TableWithTx.Count`: no context pre-check — one `QueryRowContext`. -/
def txCount (ctxCancelled : Bool) (scan : Except String Nat) :
    Except DbErr Nat × Nat :=
  let scanOutcome := if ctxCancelled then Except.error "context canceled" else scan
  match scanOutcome with
  | .error e => (.error (.scanFailed e), 1)
  | .ok c => (.ok c, 1)

/-! ### Helper lemmas -/

theorem countQ_append (a b : String) : countQ (a ++ b) = countQ a + countQ b := by
  show (a.data ++ b.data).count '?' = _
  exact List.count_append _ _ _

theorem countQ_goJoin (l : List String) (sep : String) (hsep : countQ sep = 0) :
    countQ (goJoin l sep) = (l.map countQ).sum := by
  induction l with
  | nil => simp [goJoin, countQ]
  | cons s rest ih =>
      cases rest with
      | nil => simp [goJoin]
      | cons s' rest' =>
          rw [show goJoin (s :: s' :: rest') sep = s ++ sep ++ goJoin (s' :: rest') sep
              from rfl, countQ_append, countQ_append, ih, hsep]
          simp

theorem flatMap_map_congr {α β γ : Type} (f : α → β) (g : β → List γ) (h : α → List γ)
    (l : List α) (hl : ∀ a ∈ l, g (f a) = h a) : (l.map f).flatMap g = l.flatMap h := by
  induction l with
  | nil => rfl
  | cons a as ih =>
      simp only [List.map_cons, List.flatMap_cons, hl a (by simp)]
      rw [ih fun a ha => hl a (by simp [ha])]

theorem map_map_congr {α β γ : Type} (f : α → β) (g : β → γ) (h : α → γ)
    (l : List α) (hl : ∀ a ∈ l, g (f a) = h a) : (l.map f).map g = l.map h := by
  induction l with
  | nil => rfl
  | cons a as ih =>
      simp only [List.map_cons, hl a (by simp)]
      rw [ih fun a ha => hl a (by simp [ha])]

theorem buildList_eq_map {V : Type} (ps : List (Pred V)) :
    buildList ps = ps.map build := by
  induction ps with
  | nil => rfl
  | cons p ps ih => simp [buildList, ih]

theorem fieldsOfList_eq_flatMap {V : Type} (ps : List (Pred V)) :
    fieldsOfList ps = ps.flatMap fieldsOf := by
  induction ps with
  | nil => rfl
  | cons p ps ih => simp [fieldsOfList, ih]

theorem specTraversalValuesList_eq_flatMap {V : Type} (ps : List (Pred V)) :
    specTraversalValuesList ps = ps.flatMap specTraversalValues := by
  induction ps with
  | nil => rfl
  | cons p ps ih => simp [specTraversalValuesList, ih]

theorem shapeOfList_eq_map {V : Type} (ps : List (Pred V)) :
    shapeOfList ps = ps.map shapeOf := by
  induction ps with
  | nil => rfl
  | cons p ps ih => simp [shapeOfList, ih]

theorem build_andP {V : Type} (ps : List (Pred V)) :
    build (Pred.andP ps) = AndC (ps.map build) := by
  rw [show build (Pred.andP ps) = AndC (buildList ps) from rfl, buildList_eq_map]

theorem build_orP {V : Type} (ps : List (Pred V)) :
    build (Pred.orP ps) = OrC (ps.map build) := by
  rw [show build (Pred.orP ps) = OrC (buildList ps) from rfl, buildList_eq_map]

theorem fieldsOf_andP {V : Type} (ps : List (Pred V)) :
    fieldsOf (Pred.andP ps) = ps.flatMap fieldsOf := by
  rw [show fieldsOf (Pred.andP ps) = fieldsOfList ps from rfl, fieldsOfList_eq_flatMap]

theorem fieldsOf_orP {V : Type} (ps : List (Pred V)) :
    fieldsOf (Pred.orP ps) = ps.flatMap fieldsOf := by
  rw [show fieldsOf (Pred.orP ps) = fieldsOfList ps from rfl, fieldsOfList_eq_flatMap]

theorem specTraversalValues_andP {V : Type} (ps : List (Pred V)) :
    specTraversalValues (Pred.andP ps) = ps.flatMap specTraversalValues := by
  rw [show specTraversalValues (Pred.andP ps) = specTraversalValuesList ps from rfl,
    specTraversalValuesList_eq_flatMap]

theorem specTraversalValues_orP {V : Type} (ps : List (Pred V)) :
    specTraversalValues (Pred.orP ps) = ps.flatMap specTraversalValues := by
  rw [show specTraversalValues (Pred.orP ps) = specTraversalValuesList ps from rfl,
    specTraversalValuesList_eq_flatMap]

theorem shapeOf_andP {V : Type} (ps : List (Pred V)) :
    shapeOf (Pred.andP ps) = Pred.andP (ps.map shapeOf) := by
  rw [show shapeOf (Pred.andP ps) = Pred.andP (shapeOfList ps) from rfl, shapeOfList_eq_map]

theorem shapeOf_orP {V : Type} (ps : List (Pred V)) :
    shapeOf (Pred.orP ps) = Pred.orP (ps.map shapeOf) := by
  rw [show shapeOf (Pred.orP ps) = Pred.orP (shapeOfList ps) from rfl, shapeOfList_eq_map]

/-- The bind values of a built predicate are the node values concatenated
in left-to-right traversal order. -/
theorem values_build {V : Type} (p : Pred V) :
    values (build p) = specTraversalValues p := by
  induction p using Pred.inductionMem with
  | handP ps ih =>
      rw [build_andP, specTraversalValues_andP]
      exact flatMap_map_congr build values specTraversalValues ps ih
  | horP ps ih =>
      rw [build_orP, specTraversalValues_orP]
      exact flatMap_map_congr build values specTraversalValues ps ih
  | _ =>
      simp [build, specTraversalValues, values, EqualC, NotEqualC, LessThanC,
        LessThanOrEqualC, GreaterThanC, GreaterThanOrEqualC, LikeC, InC,
        BetweenC, ContainsAllC, ContainsAnyC, ContainsC]

theorem countQ_jsonField (f : String) : countQ (jsonField f) = countQ f := by
  rw [jsonField, countQ_append, countQ_append]
  have h1 : countQ "data->>'" = 0 := by decide
  have h2 : countQ "'" = 0 := by decide
  omega

theorem countQ_containsSingle (f : String) (h : countQ f = 0) :
    countQ (containsSingle f) = 1 := by
  rw [containsSingle, countQ_append, countQ_append, countQ_jsonField, h]
  decide

theorem sum_map_one {α : Type} (l : List α) : (l.map fun _ => (1 : Nat)).sum = l.length := by
  induction l with
  | nil => rfl
  | cons a as ih => simp [ih]; omega

theorem clauseText_combine_ne_nil {V : Type} (comb : String) (l : List (Clause V))
    (h : l ≠ []) :
    clauseText (combine comb l) =
      "(" ++ goJoin (l.map clauseText) (" " ++ comb ++ " ") ++ ")" := by
  simp only [combine, clauseText]
  rw [if_neg (by simpa using h)]

theorem values_combine {V : Type} (comb : String) (l : List (Clause V)) :
    values (combine comb l) = l.flatMap values := rfl

/-- The `?` characters in a built predicate's rendered clause are exactly
its bind values, provided the (trusted) field paths contain no `?`. -/
theorem countQ_clauseText_build {V : Type} (p : Pred V)
    (hf : ∀ f ∈ fieldsOf p, countQ f = 0) :
    countQ (clauseText (build p)) = (values (build p)).length := by
  induction p using Pred.inductionMem with
  | hinP f vs =>
      have h0 : countQ f = 0 := hf f (by simp [fieldsOf])
      simp only [build, InC, clauseText, values, countQ_append, countQ_jsonField, h0,
        countQ_goJoin _ "," (by decide), List.map_map]
      have hmap : (vs.map (countQ ∘ fun _ => "?")) = vs.map (fun _ => (1 : Nat)) := by
        refine List.map_congr_left fun a _ => ?_
        exact (by decide : countQ "?" = 1)
      rw [hmap, sum_map_one]
      have h1 : countQ "(" = 0 := by decide
      have h2 : countQ " IN (" = 0 := by decide
      have h3 : countQ "))" = 0 := by decide
      omega
  | hbetween f a b =>
      have h0 : countQ f = 0 := hf f (by simp [fieldsOf])
      simp only [build, BetweenC, clauseText, values, countQ_append, countQ_jsonField,
        h0, List.length_cons, List.length_nil]
      have h1 : countQ "(" = 0 := by decide
      have h2 : countQ " BETWEEN ? AND ?)" = 2 := by decide
      omega
  | hcontainsAll f vs =>
      have h0 : countQ f = 0 := hf f (by simp [fieldsOf])
      simp only [build, ContainsAllC, clauseText, values]
      split
      · next h1 => rw [countQ_containsSingle f h0, h1]
      · simp only [countQ_append, countQ_goJoin _ (" " ++ "AND" ++ " ") (by decide),
          List.map_map]
        have hmap : (vs.map (countQ ∘ fun _ => containsSingle f)) =
            vs.map (fun _ => (1 : Nat)) := by
          refine List.map_congr_left fun a _ => ?_
          simp [Function.comp, countQ_containsSingle f h0]
        rw [hmap, sum_map_one]
        have h1 : countQ "(" = 0 := by decide
        have h2 : countQ ")" = 0 := by decide
        omega
  | hcontainsAny f vs =>
      have h0 : countQ f = 0 := hf f (by simp [fieldsOf])
      simp only [build, ContainsAnyC, clauseText, values]
      split
      · next h1 => rw [countQ_containsSingle f h0, h1]
      · simp only [countQ_append, countQ_goJoin _ (" " ++ "OR" ++ " ") (by decide),
          List.map_map]
        have hmap : (vs.map (countQ ∘ fun _ => containsSingle f)) =
            vs.map (fun _ => (1 : Nat)) := by
          refine List.map_congr_left fun a _ => ?_
          simp [Function.comp, countQ_containsSingle f h0]
        rw [hmap, sum_map_one]
        have h1 : countQ "(" = 0 := by decide
        have h2 : countQ ")" = 0 := by decide
        omega
  | hcontains f v =>
      have h0 : countQ f = 0 := hf f (by simp [fieldsOf])
      simp only [build, ContainsC, ContainsAllC, clauseText, values]
      rw [if_pos (by simp), countQ_containsSingle f h0]
      simp
  | handP ps ih =>
      rw [build_andP]
      rcases eq_or_ne ps [] with h | h
      · subst h; rfl
      · have hne : ps.map build ≠ [] := by simpa using h
        rw [show AndC (ps.map build) = combine "AND" (ps.map build) from rfl,
          clauseText_combine_ne_nil _ _ hne, values_combine]
        simp only [countQ_append, countQ_goJoin _ (" " ++ "AND" ++ " ") (by decide),
          List.length_flatMap, List.map_map]
        have hmaps : ps.map (countQ ∘ clauseText ∘ build) =
            ps.map ((List.length ∘ values) ∘ build) := by
          refine List.map_congr_left fun p hp => ?_
          have := ih p hp (fun f hfp => hf f
            (by rw [fieldsOf_andP]; exact List.mem_flatMap.mpr ⟨p, hp, hfp⟩))
          simpa [Function.comp] using this
        rw [hmaps]
        have h1 : countQ "(" = 0 := by decide
        have h2 : countQ ")" = 0 := by decide
        omega
  | horP ps ih =>
      rw [build_orP]
      rcases eq_or_ne ps [] with h | h
      · subst h; rfl
      · have hne : ps.map build ≠ [] := by simpa using h
        rw [show OrC (ps.map build) = combine "OR" (ps.map build) from rfl,
          clauseText_combine_ne_nil _ _ hne, values_combine]
        simp only [countQ_append, countQ_goJoin _ (" " ++ "OR" ++ " ") (by decide),
          List.length_flatMap, List.map_map]
        have hmaps : ps.map (countQ ∘ clauseText ∘ build) =
            ps.map ((List.length ∘ values) ∘ build) := by
          refine List.map_congr_left fun p hp => ?_
          have := ih p hp (fun f hfp => hf f
            (by rw [fieldsOf_orP]; exact List.mem_flatMap.mpr ⟨p, hp, hfp⟩))
          simpa [Function.comp] using this
        rw [hmaps]
        have h1 : countQ "(" = 0 := by decide
        have h2 : countQ ")" = 0 := by decide
        omega
  | _ =>
      rename_i f v
      have h0 : countQ f = 0 := hf f (by simp [fieldsOf])
      simp only [build, EqualC, NotEqualC, LessThanC, LessThanOrEqualC,
        GreaterThanC, GreaterThanOrEqualC, LikeC, clauseText, values,
        countQ_append, countQ_jsonField, h0, List.length_cons, List.length_nil]
      decide

example : clauseText (AllC (V := Nat)) = "(1 == 1)" := rfl

example :
    clauseText (AndC [Clause.condition "a" "=" (1 : Nat),
      Clause.inCondition "b" [2, 3]]) =
      "((data->>'a' = ?) AND (data->>'b' IN (?,?)))" := rfl

example :
    values (AndC [Clause.condition "a" "=" (1 : Nat),
      Clause.inCondition "b" [2, 3]]) = [1, 2, 3] := rfl

theorem head_append_of_head (a b : String) (c : Char) (h : a.data.head? = some c) :
    (a ++ b).data.head? = some c := by
  show (a.data ++ b.data).head? = some c
  cases ha : a.data with
  | nil => rw [ha] at h; simp at h
  | cons x xs => rw [ha] at h; simp at h; simp [h]

theorem getLast_append_of_getLast (a b : String) (c : Char)
    (h : b.data.getLast? = some c) : (a ++ b).data.getLast? = some c := by
  show (a.data ++ b.data).getLast? = some c
  rw [List.getLast?_append_of_ne_nil]
  · exact h
  · intro hb; rw [hb] at h; simp at h

/-- The rendered clause of a built predicate depends only on the
predicate's shape (constructors, field paths, value-list lengths), never
on the bind values themselves. -/
theorem clauseText_build_shapeOf {V : Type} (p : Pred V) :
    clauseText (build p) = clauseText (build (shapeOf p)) := by
  induction p using Pred.inductionMem with
  | hinP f vs =>
      simp [build, InC, shapeOf, clauseText, List.map_map, Function.comp]
  | hcontainsAll f vs =>
      simp [build, ContainsAllC, shapeOf, clauseText, List.length_map,
        List.map_map, Function.comp]
  | hcontainsAny f vs =>
      simp [build, ContainsAnyC, shapeOf, clauseText, List.length_map,
        List.map_map, Function.comp]
  | handP ps ih =>
      rw [build_andP, show shapeOf (Pred.andP ps) = Pred.andP (shapeOfList ps) from rfl,
        shapeOfList_eq_map, build_andP]
      rcases eq_or_ne ps [] with h | h
      · subst h; rfl
      · have hne1 : ps.map build ≠ [] := by simpa using h
        have hne2 : (ps.map shapeOf).map build ≠ [] := by simpa using h
        rw [show AndC (ps.map build) = combine "AND" (ps.map build) from rfl,
          show AndC ((ps.map shapeOf).map build) =
            combine "AND" ((ps.map shapeOf).map build) from rfl,
          clauseText_combine_ne_nil _ _ hne1, clauseText_combine_ne_nil _ _ hne2]
        have hlists : (ps.map build).map clauseText =
            ((ps.map shapeOf).map build).map clauseText := by
          rw [List.map_map, List.map_map, List.map_map]
          refine List.map_congr_left fun p hp => ?_
          simpa [Function.comp] using ih p hp
        rw [hlists]
  | horP ps ih =>
      rw [build_orP, show shapeOf (Pred.orP ps) = Pred.orP (shapeOfList ps) from rfl,
        shapeOfList_eq_map, build_orP]
      rcases eq_or_ne ps [] with h | h
      · subst h; rfl
      · have hne1 : ps.map build ≠ [] := by simpa using h
        have hne2 : (ps.map shapeOf).map build ≠ [] := by simpa using h
        rw [show OrC (ps.map build) = combine "OR" (ps.map build) from rfl,
          show OrC ((ps.map shapeOf).map build) =
            combine "OR" ((ps.map shapeOf).map build) from rfl,
          clauseText_combine_ne_nil _ _ hne1, clauseText_combine_ne_nil _ _ hne2]
        have hlists : (ps.map build).map clauseText =
            ((ps.map shapeOf).map build).map clauseText := by
          rw [List.map_map, List.map_map, List.map_map]
          refine List.map_congr_left fun p hp => ?_
          simpa [Function.comp] using ih p hp
        rw [hlists]
  | _ =>
      simp [build, shapeOf, EqualC, NotEqualC, LessThanC, LessThanOrEqualC,
        GreaterThanC, GreaterThanOrEqualC, LikeC, BetweenC, ContainsC,
        ContainsAllC, clauseText]

/-- Every rendered clause fragment opens with `(`. -/
theorem clauseText_build_head {V : Type} (p : Pred V) :
    (clauseText (build p)).data.head? = some '(' := by
  cases p with
  | andP ps =>
      rcases eq_or_ne ps [] with h | h
      · subst h; rfl
      · have hne : ps.map build ≠ [] := by simpa using h
        rw [build_andP, show AndC (ps.map build) = combine "AND" (ps.map build) from rfl,
          clauseText_combine_ne_nil _ _ hne]
        repeat apply head_append_of_head
        rfl
  | orP ps =>
      rcases eq_or_ne ps [] with h | h
      · subst h; rfl
      · have hne : ps.map build ≠ [] := by simpa using h
        rw [build_orP, show OrC (ps.map build) = combine "OR" (ps.map build) from rfl,
          clauseText_combine_ne_nil _ _ hne]
        repeat apply head_append_of_head
        rfl
  | _ =>
      simp only [build, EqualC, NotEqualC, LessThanC, LessThanOrEqualC, GreaterThanC,
        GreaterThanOrEqualC, LikeC, InC, BetweenC, ContainsAllC, ContainsAnyC,
        ContainsC, clauseText, containsSingle]
      try split
      all_goals (repeat apply head_append_of_head)
      all_goals rfl

/-- Every rendered clause fragment closes with `)`. -/
theorem clauseText_build_getLast {V : Type} (p : Pred V) :
    (clauseText (build p)).data.getLast? = some ')' := by
  cases p with
  | andP ps =>
      rcases eq_or_ne ps [] with h | h
      · subst h; rfl
      · have hne : ps.map build ≠ [] := by simpa using h
        rw [build_andP, show AndC (ps.map build) = combine "AND" (ps.map build) from rfl,
          clauseText_combine_ne_nil _ _ hne]
        apply getLast_append_of_getLast
        decide
  | orP ps =>
      rcases eq_or_ne ps [] with h | h
      · subst h; rfl
      · have hne : ps.map build ≠ [] := by simpa using h
        rw [build_orP, show OrC (ps.map build) = combine "OR" (ps.map build) from rfl,
          clauseText_combine_ne_nil _ _ hne]
        apply getLast_append_of_getLast
        decide
  | _ =>
      simp only [build, EqualC, NotEqualC, LessThanC, LessThanOrEqualC, GreaterThanC,
        GreaterThanOrEqualC, LikeC, InC, BetweenC, ContainsAllC, ContainsAnyC,
        ContainsC, clauseText, containsSingle]
      try split
      all_goals first
      | decide
      | (apply getLast_append_of_getLast; decide)

/-! ### Claim theorems -/

/-- C1: for every predicate built from the public constructors (with the
trusted field paths free of `?`), the number of `?` placeholders in the
string returned by `Clause()` equals the length of `Values()`, and the
values are listed in the left-to-right recursive traversal order of the
predicate tree. -/
theorem C1_placeholders_match_values {V : Type} (p : Pred V)
    (hf : ∀ f ∈ fieldsOf p, countQ f = 0) :
    countQ (clauseText (build p)) = (values (build p)).length ∧
    values (build p) = specTraversalValues p :=
  ⟨countQ_clauseText_build p hf, values_build p⟩

/-- Witness for C1 at a concrete nested predicate. -/
theorem C1_placeholders_match_values_witness :
    (∀ f ∈ fieldsOf (Pred.andP [Pred.equal "name" "x",
        Pred.orP [Pred.inP "a" ["1", "2"], Pred.between "b" "3" "4"],
        Pred.containsAll "tags" ["t1", "t2"], Pred.contains "tag" "t3",
        Pred.like "c" "%z%", Pred.andP []]), countQ f = 0) ∧
    (countQ (clauseText (build (Pred.andP [Pred.equal "name" "x",
        Pred.orP [Pred.inP "a" ["1", "2"], Pred.between "b" "3" "4"],
        Pred.containsAll "tags" ["t1", "t2"], Pred.contains "tag" "t3",
        Pred.like "c" "%z%", Pred.andP []]))) =
      (values (build (Pred.andP [Pred.equal "name" "x",
        Pred.orP [Pred.inP "a" ["1", "2"], Pred.between "b" "3" "4"],
        Pred.containsAll "tags" ["t1", "t2"], Pred.contains "tag" "t3",
        Pred.like "c" "%z%", Pred.andP []]))).length ∧
      values (build (Pred.andP [Pred.equal "name" "x",
        Pred.orP [Pred.inP "a" ["1", "2"], Pred.between "b" "3" "4"],
        Pred.containsAll "tags" ["t1", "t2"], Pred.contains "tag" "t3",
        Pred.like "c" "%z%", Pred.andP []])) =
      specTraversalValues (Pred.andP [Pred.equal "name" "x",
        Pred.orP [Pred.inP "a" ["1", "2"], Pred.between "b" "3" "4"],
        Pred.containsAll "tags" ["t1", "t2"], Pred.contains "tag" "t3",
        Pred.like "c" "%z%", Pred.andP []])) :=
  ⟨by decide, C1_placeholders_match_values _ (by decide)⟩

/-- C2: the fluent `P.And(Q)` / `P.Or(Q)` produce exactly the same
`Clause()` text and the same `Values()` list as the free-function forms
`And(P, Q)` / `Or(P, Q)`. -/
theorem C2_fluent_equals_free {V : Type} (P Q : Clause V) :
    clauseText (P.fluentAnd Q) = clauseText (AndC [P, Q]) ∧
    values (P.fluentAnd Q) = values (AndC [P, Q]) ∧
    clauseText (P.fluentOr Q) = clauseText (OrC [P, Q]) ∧
    values (P.fluentOr Q) = values (OrC [P, Q]) := by
  cases P <;> exact ⟨rfl, rfl, rfl, rfl⟩

/-- C7: `ContainsAll(f, v1, v2)` renders two existence-subqueries joined
by AND, `ContainsAny(f, v1, v2)` the same two joined by OR, and
`Contains(f, v)` produces the same clause text and values as single-value
`ContainsAll(f, v)`. -/
theorem C7_contains_rendering {V : Type} (f : String) (v1 v2 : V) :
    clauseText (build (Pred.containsAll f [v1, v2])) =
      "(" ++ containsSingle f ++ " AND " ++ containsSingle f ++ ")" ∧
    values (build (Pred.containsAll f [v1, v2])) = [v1, v2] ∧
    clauseText (build (Pred.containsAny f [v1, v2])) =
      "(" ++ containsSingle f ++ " OR " ++ containsSingle f ++ ")" ∧
    values (build (Pred.containsAny f [v1, v2])) = [v1, v2] ∧
    clauseText (build (Pred.contains f v1)) =
      clauseText (build (Pred.containsAll f [v1])) ∧
    values (build (Pred.contains f v1)) =
      values (build (Pred.containsAll f [v1])) := by
  have hA : (" AND " : String) = " " ++ "AND" ++ " " := rfl
  have hO : (" OR " : String) = " " ++ "OR" ++ " " := rfl
  refine ⟨?_, rfl, ?_, rfl, rfl, rfl⟩
  · rw [hA]
    show clauseText (ContainsAllC f [v1, v2]) = _
    simp only [ContainsAllC, clauseText]
    rw [if_neg (by simp)]
    simp only [List.map_cons, List.map_nil, goJoin]
    simp [String.append_assoc]
  · rw [hO]
    show clauseText (ContainsAnyC f [v1, v2]) = _
    simp only [ContainsAnyC, clauseText]
    rw [if_neg (by simp)]
    simp only [List.map_cons, List.map_nil, goJoin]
    simp [String.append_assoc]

/-- C8: the zero-argument combinator `And()` (exposed as `All()`) renders
the always-true expression `(1 == 1)` and binds no parameters. -/
theorem C8_all_renders_always_true (V : Type) :
    AllC (V := V) = AndC [] ∧
    clauseText (AllC (V := V)) = "(1 == 1)" ∧
    values (AllC (V := V)) = ([] : List V) :=
  ⟨rfl, rfl, rfl⟩

/-- C9: the SQL text of a built predicate is independent of the
caller-supplied values — two predicates of the same shape (same
constructors, same field paths, same number of values) render
character-identical `Clause()` strings — and each fragment is fully
parenthesized; values reach the engine only through `Values()`. -/
theorem C9_text_independent_of_values {V W : Type} (p : Pred V) (q : Pred W)
    (h : shapeOf p = shapeOf q) :
    clauseText (build p) = clauseText (build q) ∧
    (clauseText (build p)).data.head? = some '(' ∧
    (clauseText (build p)).data.getLast? = some ')' := by
  refine ⟨?_, clauseText_build_head p, clauseText_build_getLast p⟩
  rw [clauseText_build_shapeOf p, h, ← clauseText_build_shapeOf q]

/-- Witness for C9: an `Int`-valued and a `String`-valued predicate of the
same shape render the same text. -/
theorem C9_text_independent_of_values_witness :
    shapeOf (Pred.andP [Pred.equal "a" (1 : Int), Pred.inP "b" [2, 3]]) =
      shapeOf (Pred.andP [Pred.equal "a" "other", Pred.inP "b" ["x", "y"]]) ∧
    (clauseText (build (Pred.andP [Pred.equal "a" (1 : Int), Pred.inP "b" [2, 3]])) =
      clauseText (build (Pred.andP [Pred.equal "a" "other", Pred.inP "b" ["x", "y"]])) ∧
    (clauseText (build (Pred.andP [Pred.equal "a" (1 : Int),
      Pred.inP "b" [2, 3]]))).data.head? = some '(' ∧
    (clauseText (build (Pred.andP [Pred.equal "a" (1 : Int),
      Pred.inP "b" [2, 3]]))).data.getLast? = some ')') :=
  ⟨rfl, C9_text_independent_of_values _ _ rfl⟩

theorem cutAfter_eq_nil {l : List Char} {c : Char} (h : c ∉ l) : cutAfter l c = [] := by
  induction l with
  | nil => rfl
  | cons x xs ih =>
      rw [cutAfter, if_neg (by intro hx; subst hx; exact h (List.mem_cons_self x xs))]
      exact ih fun hm => h (List.mem_cons_of_mem x hm)

/-- C10: field paths without a `.` escape to the empty string, so any two
distinct dot-free fields on the same table derive the identical index name
`idx_<table>_` — index-name derivation is not injective even on simple
single-field inputs. -/
theorem C10_index_name_collision (tbl f1 f2 : String)
    (h1 : '.' ∉ f1.data) (h2 : '.' ∉ f2.data) (hne : f1 ≠ f2) :
    escapeFieldName f1 = "" ∧
    constructIndexName tbl [f1] = "idx_" ++ tbl ++ "_" ∧
    constructIndexName tbl [f1] = constructIndexName tbl [f2] := by
  have he : ∀ f : String, '.' ∉ f.data → escapeFieldName f = "" := by
    intro f hf
    simp [escapeFieldName, cutAfter_eq_nil hf, replaceAllChar]
  have hname : ∀ f : String, '.' ∉ f.data →
      constructIndexName tbl [f] = "idx_" ++ tbl ++ "_" := by
    intro f hf
    rw [constructIndexName, joinEscapedFieldNames]
    simp [he f hf, goJoin]
  exact ⟨he f1 h1, hname f1 h1, by rw [hname f1 h1, hname f2 h2]⟩

/-- Witness for C10: the table of the README quick start (`user`) with the
dot-free fields `id` and `name`. -/
theorem C10_index_name_collision_witness :
    ('.' ∉ ("id" : String).data ∧ '.' ∉ ("name" : String).data ∧ ("id" : String) ≠ "name") ∧
    (escapeFieldName "id" = "" ∧
    constructIndexName "user" ["id"] = "idx_" ++ "user" ++ "_" ∧
    constructIndexName "user" ["id"] = constructIndexName "user" ["name"]) :=
  ⟨by refine ⟨by decide, by decide, by decide⟩,
    C10_index_name_collision "user" "id" "name" (by decide) (by decide) (by decide)⟩

theorem collectRows_ok {T : Type} (dec : String → Except String T) (f : String → T)
    (rows : List String) (h : ∀ r ∈ rows, dec r = .ok (f r)) :
    collectRows dec rows = .ok (rows.map f) := by
  induction rows with
  | nil => rfl
  | cons r rs ih =>
      simp [collectRows, h r (by simp), ih fun a ha => h a (by simp [ha])]

/-- The string tail built by `Table.QueryManyWithPagination` renders the
structured pagination clause `tablePagination`: the table query always
carries a `LIMIT` (possibly `-1`). -/
theorem tableSuffix_eq_paginationSuffix (limit offset : Nat) :
    tableSuffix limit offset = paginationSuffix (tablePagination limit offset) := by
  have hts : ∀ n : Nat, toString (n : Int) = toString n := fun n => rfl
  by_cases hl : limit > 0 <;> by_cases ho : offset > 0 <;>
    simp [tableSuffix, tablePagination, paginationSuffix, hl, ho, hts,
      String.append_assoc] <;>
    rw [show (" LIMIT -1" : String) = " LIMIT " ++ toString (-1 : Int) from rfl] <;>
    simp [String.append_assoc]

/-- The string tail built by `TableWithTx.QueryManyWithPagination` renders
the structured pagination clause `txPagination`: with `limit = 0` no
`LIMIT` is emitted, so a positive `offset` yields a bare `OFFSET`. -/
theorem txSuffix_eq_paginationSuffix (limit offset : Nat) :
    txSuffix limit offset = paginationSuffix (txPagination limit offset) := by
  have hts : ∀ n : Nat, toString (n : Int) = toString n := fun n => rfl
  by_cases hl : limit > 0 <;> by_cases ho : offset > 0 <;>
    simp [txSuffix, txPagination, paginationSuffix, hl, ho, hts,
      String.append_assoc]

/-- C3 fails on the transactional view: with `limit = 0` and a positive
`offset`, `TableWithTx.QueryManyWithPagination` emits a bare ` OFFSET n`
tail (no `LIMIT` clause), which the engine rejects as a syntax error, so
the call errors instead of returning the remaining rows; the plain
`Table` version appends ` LIMIT -1` in that case and satisfies the
contract, including the empty result for an offset beyond the data. -/
theorem C3_tx_offset_without_limit_errors :
    txSuffix 0 1 = " OFFSET 1" ∧
    tableSuffix 0 1 = " LIMIT -1 OFFSET 1" ∧
    txQueryManyWithPagination false ["r1", "r2"] 0 1 (fun s => Except.ok s) =
      (.error (.queryFailed .syntaxError), 1) ∧
    tableQueryManyWithPagination false ["r1", "r2"] 0 1 (fun s => Except.ok s) =
      (.ok (some ["r2"]), 1) ∧
    tableQueryManyWithPagination false ["r1", "r2"] 0 5 (fun s => Except.ok s) =
      (.ok (some []), 1) :=
  ⟨rfl, rfl, rfl, rfl, rfl⟩

/-- C4 as stated is false: with an already-cancelled context, `QueryOne`
still issues its engine call — the number of engine calls is 1, not 0. -/
theorem C4_counterexample_queryOne_calls_engine :
    (tableQueryOne true ScanResult.noRows (fun s => Except.ok s)).2 = 1 ∧
    (tableQueryOne true ScanResult.noRows (fun s => Except.ok s)).2 ≠ 0 :=
  ⟨rfl, by decide⟩

/-- C4 amended: when the supplied context is already cancelled,
`Insert`, `Update` and `Delete` (on both the plain table and the
transactional view) return a cancellation error before issuing any engine
call, while `QueryOne`, `QueryManyWithPagination` (hence `QueryMany`) and
`Count` perform no pre-check and issue their single engine call, which
surfaces the cancellation. -/
theorem C4_amended_cancellation_contract {T : Type} (marshal : Except String String)
    (execU : Except EngineErr Unit) (execN : Except EngineErr Nat)
    (scan : ScanResult) (scanCount : Except String Nat)
    (rows : List String) (limit offset : Nat) (dec : String → Except String T) :
    tableInsert true marshal execU = (.error (.ctxError "insert"), 0) ∧
    tableUpdate true marshal execN = (.error (.ctxError "update"), 0) ∧
    tableDelete true execN = (.error (.ctxError "delete"), 0) ∧
    txInsert true marshal execU = (.error (.ctxError "insert"), 0) ∧
    txUpdate true marshal execN = (.error (.ctxError "update"), 0) ∧
    txDelete true execN = (.error (.ctxError "delete"), 0) ∧
    (tableQueryOne true scan dec).2 = 1 ∧
    (txQueryOne true scan dec).2 = 1 ∧
    (tableQueryManyWithPagination true rows limit offset dec).2 = 1 ∧
    (txQueryManyWithPagination true rows limit offset dec).2 = 1 ∧
    (tableCount true scanCount).2 = 1 ∧
    (txCount true scanCount).2 = 1 := by
  refine ⟨rfl, rfl, rfl, rfl, rfl, rfl, rfl, rfl, ?_, ?_, rfl, rfl⟩
  · simp [tableQueryManyWithPagination, runEngineQuery]
  · simp [txQueryManyWithPagination, runEngineQuery]

/-- C5: `QueryOne` with no matching rows returns an explicit absent
result (`nil` record, `nil` error); a deserialization failure of a
matched row is reported as an error, a distinct outcome from no-match.
Holds for the plain table and the transactional view. -/
theorem C5_queryOne_no_match_vs_decode_error {T : Type}
    (dec : String → Except String T) (data msg : String) :
    tableQueryOne false ScanResult.noRows dec = (.ok none, 1) ∧
    txQueryOne false ScanResult.noRows dec = (.ok none, 1) ∧
    (dec data = .error msg →
      tableQueryOne false (ScanResult.row data) dec = (.error (.unmarshalFailed msg), 1) ∧
      txQueryOne false (ScanResult.row data) dec = (.error (.unmarshalFailed msg), 1) ∧
      tableQueryOne false (ScanResult.row data) dec ≠
        tableQueryOne false ScanResult.noRows dec) := by
  refine ⟨rfl, rfl, fun h => ⟨?_, ?_, ?_⟩⟩ <;>
    simp [tableQueryOne, txQueryOne, h]

/-- Witness for C5 with a decoder that rejects the stored document. -/
theorem C5_queryOne_no_match_vs_decode_error_witness :
    ((fun _ : String => (Except.error "invalid document" : Except String String)) "notjson" =
      .error "invalid document") ∧
    (tableQueryOne false ScanResult.noRows
        (fun _ : String => (Except.error "invalid document" : Except String String)) =
      (.ok none, 1) ∧
    txQueryOne false ScanResult.noRows
        (fun _ : String => (Except.error "invalid document" : Except String String)) =
      (.ok none, 1) ∧
    (tableQueryOne false (ScanResult.row "notjson")
        (fun _ : String => (Except.error "invalid document" : Except String String)) =
      (.error (.unmarshalFailed "invalid document"), 1) ∧
      txQueryOne false (ScanResult.row "notjson")
        (fun _ : String => (Except.error "invalid document" : Except String String)) =
      (.error (.unmarshalFailed "invalid document"), 1) ∧
      tableQueryOne false (ScanResult.row "notjson")
        (fun _ : String => (Except.error "invalid document" : Except String String)) ≠
        tableQueryOne false ScanResult.noRows
          (fun _ : String => (Except.error "invalid document" : Except String String)))) :=
  ⟨rfl, (C5_queryOne_no_match_vs_decode_error _ "notjson" "invalid document").1,
    (C5_queryOne_no_match_vs_decode_error _ "notjson" "invalid document").2.1,
    (C5_queryOne_no_match_vs_decode_error _ "notjson" "invalid document").2.2 rfl⟩

/-- C6: `QueryMany` returns all matching records in engine order, and
when no rows match it returns an empty non-nil collection (the
`make([]T, 0)` slice) with no error.  Holds for the plain table and the
transactional view. -/
theorem C6_queryMany_order_and_nonnil_empty {T : Type} (rows : List String)
    (dec : String → Except String T) (f : String → T)
    (hdec : ∀ r ∈ rows, dec r = .ok (f r)) :
    tableQueryMany false rows dec = (.ok (some (rows.map f)), 1) ∧
    tableQueryMany false [] dec = (.ok (some []), 1) ∧
    txQueryMany false rows dec = (.ok (some (rows.map f)), 1) ∧
    txQueryMany false [] dec = (.ok (some []), 1) := by
  have hengT : ∀ rs : List String, runEngineQuery false rs (tablePagination 0 0) = .ok rs := by
    intro rs
    simp [runEngineQuery, tablePagination, show ((-1 : Int) < 0) from by decide]
  have hengX : ∀ rs : List String, runEngineQuery false rs (txPagination 0 0) = .ok rs := by
    intro rs
    simp [runEngineQuery, txPagination]
  refine ⟨?_, ?_, ?_, ?_⟩ <;>
    simp [tableQueryMany, txQueryMany, tableQueryManyWithPagination,
      txQueryManyWithPagination, hengT, hengX, collectRows_ok dec f rows hdec,
      collectRows]

/-- Witness for C6 with two rows decoded by the identity decoder. -/
theorem C6_queryMany_order_and_nonnil_empty_witness :
    (∀ r ∈ ["r1", "r2"], (fun s => (Except.ok s : Except String String)) r =
      .ok ((fun s => s) r)) ∧
    (tableQueryMany false ["r1", "r2"] (fun s => (Except.ok s : Except String String)) =
      (.ok (some (["r1", "r2"].map fun s => s)), 1) ∧
    tableQueryMany false [] (fun s => (Except.ok s : Except String String)) =
      (.ok (some []), 1) ∧
    txQueryMany false ["r1", "r2"] (fun s => (Except.ok s : Except String String)) =
      (.ok (some (["r1", "r2"].map fun s => s)), 1) ∧
    txQueryMany false [] (fun s => (Except.ok s : Except String String)) =
      (.ok (some []), 1)) :=
  ⟨fun r _ => rfl, C6_queryMany_order_and_nonnil_empty ["r1", "r2"] _ _ (fun r _ => rfl)⟩

end NoSQLite
